import Mathlib

/-!
Verification development for the fitness-body-tracker frontend
(app/static/js/exercise.js, current version at lines 418-1129 of the
packed file). The landmark smoother inside drawSkeleton, the countdown
state machine around handlePoseData / startCountdown / resetCountdown /
exerciseCompleted, and the single-flight frame pipeline around
processFrame and the WebSocket handlers are embedded as pure Lean
functions over rational coordinates, with stateful code turned into
explicit state passing and a guarded step relation.
-/

namespace FitnessTracker

/-- A body landmark as the frontend receives it from the backend: an
x, y, z, visibility tuple (exercise.js stores each landmark as a
4-element array). Coordinates are modelled as rationals. -/
structure Landmark where
  x : ℚ
  y : ℚ
  z : ℚ
  vis : ℚ
deriving DecidableEq

/-- A frame: the ordered list of landmarks delivered for one capture
instant. -/
abbrev Frame := List Landmark

/-- Capacity of the multi-frame smoothing buffer, maxHistoryFrames = 3
(exercise.js line 429). -/
def maxHistoryFrames : ℕ := 3

/-- Exponential smoothing factor, smoothingFactor = 0.5
(exercise.js line 427). -/
def smoothingFactor : ℚ := 1/2

/-- landmarkHistory.push(landmarks) followed by the capacity check that
shifts out the oldest frame when the buffer exceeds maxHistoryFrames
(exercise.js lines 898-901). -/
def pushHistory (hist : List Frame) (f : Frame) : List Frame :=
  let h := hist ++ [f]
  if maxHistoryFrames < h.length then h.tail else h

/-- Running sums of the weighted-average step: weightedX, weightedY and
totalWeight accumulated over the buffered frames
(exercise.js lines 906-914). -/
structure WSums where
  wx : ℚ
  wy : ℚ
  tw : ℚ
deriving DecidableEq

/-- Weight of the frame at buffer position k when the buffer holds hLen
frames: (k + 1) / hLen, so more recent frames get higher weight
(exercise.js line 910). -/
def weightAt (hLen k : ℕ) : ℚ := ((k : ℚ) + 1) / (hLen : ℚ)

/-- The forEach accumulation of exercise.js lines 908-914 for landmark
index i: sums frame-at-i x and y times the weight, together with the
weights themselves, the buffer position counting up from k. Returns none
when a buffered frame has no landmark at index i, where the original
code would fail on an undefined element. -/
def waFold (hLen i : ℕ) : List Frame → ℕ → Option WSums
  | [], _ => some ⟨0, 0, 0⟩
  | f :: rest, k =>
    match f[i]?, waFold hLen i rest (k + 1) with
    | some lm, some s =>
      some ⟨lm.x * weightAt hLen k + s.wx, lm.y * weightAt hLen k + s.wy,
            weightAt hLen k + s.tw⟩
    | _, _ => none

/-- Body of the weighted-average map of exercise.js lines 905-922:
divides the accumulated sums by totalWeight and keeps z and visibility
from the current raw landmark. -/
def waLandmark (hist : List Frame) (i : ℕ) (lm : Landmark) : Option Landmark :=
  match waFold hist.length i hist 0 with
  | some s => some ⟨s.wx / s.tw, s.wy / s.tw, lm.z, lm.vis⟩
  | none => none

/-- The landmarks.map over (landmark, index) pairs with a possibly
failing body: applies g at successive indices starting from s. -/
def mapIdxOpt (g : ℕ → Landmark → Option Landmark) : ℕ → Frame → Option Frame
  | _, [] => some []
  | s, lm :: rest =>
    match g s lm, mapIdxOpt g (s + 1) rest with
    | some lm2, some rest2 => some (lm2 :: rest2)
    | _, _ => none

/-- Weighted-average step (exercise.js lines 904-923): applied only when
the history buffer holds more than one frame; otherwise the landmarks
pass through unchanged. -/
def waStep (hist : List Frame) (cur : Frame) : Option Frame :=
  if 1 < hist.length then mapIdxOpt (waLandmark hist) 0 cur else some cur

/-- Body of the exponential-smoothing map of exercise.js lines 927-938:
blends x and y with the previous smoothed landmark only when both
visibilities exceed 0.5; otherwise the landmark passes through. -/
def blendLandmark (prev : Frame) (i : ℕ) (lm : Landmark) : Option Landmark :=
  match prev[i]? with
  | some plm =>
    if 1/2 < lm.vis ∧ 1/2 < plm.vis then
      some ⟨plm.x * smoothingFactor + lm.x * (1 - smoothingFactor),
            plm.y * smoothingFactor + lm.y * (1 - smoothingFactor),
            lm.z, lm.vis⟩
    else some lm
  | none => none

/-- Exponential-smoothing step (exercise.js lines 926-939): applied only
when a previous smoothed frame exists and its landmark count matches the
current list. -/
def blendStep (last? : Option Frame) (cur : Frame) : Option Frame :=
  match last? with
  | some prev =>
    if prev.length = cur.length then mapIdxOpt (blendLandmark prev) 0 cur
    else some cur
  | none => some cur

/-- Smoother state: the bounded multi-frame history buffer and the
previous smoothed frame (exercise.js lines 426-429). -/
structure SmootherState where
  landmarkHistory : List Frame
  lastLandmarks : Option Frame
deriving DecidableEq

/-- The smoothing prefix of drawSkeleton (exercise.js lines 894-940):
early return on an empty landmark list, push into the bounded history,
weighted average when more than one frame is buffered, exponential blend
against the previous smoothed frame when the landmark counts match, and
update of lastLandmarks. Returns the smoothed landmarks used for
drawing, or none when nothing is drawn (empty input) or where the
original code would fail on a missing landmark index. -/
def drawSkeletonSmooth (st : SmootherState) (landmarks : Frame) :
    Option Frame × SmootherState :=
  if landmarks.length = 0 then (none, st)
  else
    let hist := pushHistory st.landmarkHistory landmarks
    match waStep hist landmarks with
    | none => (none, { landmarkHistory := hist, lastLandmarks := st.lastLandmarks })
    | some lms1 =>
      match blendStep st.lastLandmarks lms1 with
      | none => (none, { landmarkHistory := hist, lastLandmarks := st.lastLandmarks })
      | some lms2 =>
        (some lms2, { landmarkHistory := hist, lastLandmarks := some lms2 })

/-- Feeding the smoother the same frame n times from a fresh state,
returning the last emitted frame and the final smoother state. -/
def iterateSmoother (F : Frame) : ℕ → Option Frame × SmootherState
  | 0 => (none, ⟨[], none⟩)
  | n + 1 => drawSkeletonSmooth (iterateSmoother F n).2 F

/-- Color band attached to an evaluation by the backend. -/
inductive Color
  | red
  | yellow
  | green
deriving DecidableEq

/-- A message delivered to handlePoseData: either a failed detection
(success false) or a successful evaluation carrying accuracy and color
(exercise.js lines 837-848). -/
inductive PoseMessage
  | failure
  | result (accuracy : ℚ) (color : Color)
deriving DecidableEq

/-- Per-session frontend state relevant to the countdown machine and the
frame pipeline (exercise.js lines 418-431): the tracking and busy flags,
whether the socket is open, the isInCorrectPose flag, the countdown
value, whether the setInterval timer is active, and a counter of emitted
completion events. inFlight counts frames sent and not yet answered. -/
structure SessionState where
  isTracking : Bool
  processingFrame : Bool
  inFlight : ℕ
  wsOpen : Bool
  isInCorrectPose : Bool
  countdown : ℤ
  intervalActive : Bool
  completedCount : ℕ
deriving DecidableEq

/-- Session state right after ws.onopen (exercise.js lines 751-756); the
countdown variable still holds its initial literal 5
(exercise.js line 421). -/
def initialSession : SessionState :=
  { isTracking := true, processingFrame := false, inFlight := 0,
    wsOpen := true, isInCorrectPose := false, countdown := 5,
    intervalActive := false, completedCount := 0 }

/-- resetCountdown (exercise.js lines 1100-1115): clears the interval
timer and restores countdown to the configured exercise duration. -/
def resetCountdown (dur : ℤ) (s : SessionState) : SessionState :=
  { s with intervalActive := false, countdown := dur }

/-- startCountdown (exercise.js lines 1073-1098): sets countdown to the
configured duration and starts the 1-second interval timer. -/
def startCountdown (dur : ℤ) (s : SessionState) : SessionState :=
  { s with countdown := dur, intervalActive := true }

/-- stopCamera (exercise.js lines 566-615): stops tracking, clears the
busy flag, closes the socket and clears the interval timer. -/
def stopCamera (s : SessionState) : SessionState :=
  { s with
      isTracking := false
      processingFrame := false
      wsOpen := false
      intervalActive := false }

/-- exerciseCompleted (exercise.js lines 1117-1129): emits the terminal
completion event (beep plus completion message) and stops the session
via stopCamera. -/
def exerciseCompleted (s : SessionState) : SessionState :=
  stopCamera { s with completedCount := s.completedCount + 1 }

/-- handlePoseData (exercise.js lines 837-873): a non-success message
resets the countdown and returns without touching isInCorrectPose; a
successful evaluation enters the countdown when accuracy is at least 70
and the color is green, and otherwise resets it when it was running. -/
def handlePoseData (dur : ℤ) (s : SessionState) (m : PoseMessage) : SessionState :=
  match m with
  | .failure => resetCountdown dur s
  | .result accuracy color =>
    if 70 ≤ accuracy ∧ color = .green then
      if s.isInCorrectPose then s
      else startCountdown dur { s with isInCorrectPose := true }
    else
      if s.isInCorrectPose then
        resetCountdown dur { s with isInCorrectPose := false }
      else s

/-- One firing of the setInterval callback (exercise.js lines
1086-1097), i.e. one elapsed wall-clock second while the timer is
active: decrement the countdown and, on reaching zero or below, clear
the interval and run exerciseCompleted. -/
def tick (s : SessionState) : SessionState :=
  let s1 := { s with countdown := s.countdown - 1 }
  if s1.countdown ≤ 0 then exerciseCompleted { s1 with intervalActive := false }
  else s1

/-- Events driving one session: a capture attempt inside processFrame,
the delivery of one backend message to ws.onmessage, and one elapsed
second of the countdown timer. -/
inductive Event
  | sendFrame
  | deliver (m : PoseMessage)
  | second
deriving DecidableEq

/-- Guarded small-step semantics of one session. sendFrame follows
processFrame (exercise.js lines 785-835): a frame is sent only when
tracking is on, no frame is being processed and the socket is open;
otherwise the capture is dropped (none - there is no queue to hold it).
deliver follows ws.onmessage (exercise.js lines 758-767): it answers a
frame in flight on an open socket, runs handlePoseData and then clears
the busy flag. second fires only while the interval timer is active and
runs tick. -/
def step (dur : ℤ) (s : SessionState) : Event → Option SessionState
  | .sendFrame =>
    if s.isTracking = true ∧ s.processingFrame = false ∧ s.wsOpen = true then
      some { s with processingFrame := true, inFlight := s.inFlight + 1 }
    else none
  | .deliver m =>
    if s.wsOpen = true ∧ 0 < s.inFlight then
      some { handlePoseData dur s m with
               processingFrame := false
               inFlight := s.inFlight - 1 }
    else none
  | .second =>
    if s.intervalActive = true then some (tick s) else none

/-- States reachable from the freshly opened session by the step
relation. -/
inductive Reachable (dur : ℤ) : SessionState → Prop
  | init : Reachable dur initialSession
  | next {s s' : SessionState} {e : Event} :
      Reachable dur s → step dur s e = some s' → Reachable dur s'

/-- Modelled from the spec: the accuracy-to-color mapping implemented in
app/services/pose_detector.py, which is not among the provided source
files (only its outputs reach exercise.js). Spec section 4.4: map the
clamped total to color by fixed, non-overlapping, inclusive-at-lower-
bound bands: 0 to 50 exclusive red, 50 to 70 exclusive yellow, 70 to
100 green. -/
def colorOf (a : ℚ) : Color :=
  if a < 50 then .red else if a < 70 then .yellow else .green

/-- The session right after the first frame has been sent for
evaluation. -/
def openSent : SessionState :=
  { initialSession with processingFrame := true, inFlight := 1 }

/-- A Holding session at the full duration 5, reached by a qualifying
green evaluation. -/
def holding5 : SessionState :=
  { initialSession with isInCorrectPose := true, intervalActive := true }

/-- The Holding session after one elapsed second. -/
def holding4 : SessionState := { holding5 with countdown := 4 }

/-- The Holding session after two elapsed seconds. -/
def holding3 : SessionState := { holding5 with countdown := 3 }

/-- The Holding session with remaining time 3 and a frame in flight. -/
def holdingBusy3 : SessionState :=
  { holding3 with processingFrame := true, inFlight := 1 }

/-- The state reached when a non-success message answers the in-flight
frame of holdingBusy3: interval cleared and countdown reset to the full
duration, but isInCorrectPose still set. -/
def stuckAfterFailure : SessionState :=
  { holding5 with intervalActive := false }

/-- Inductive invariant of the session step relation: at most one frame
in flight; an open, tracking, non-busy session has nothing in flight; at
most one completion event is ever emitted; a completed session has torn
everything down; and the interval timer only runs while isInCorrectPose
is set. -/
def SessionInv (s : SessionState) : Prop :=
  s.inFlight ≤ 1 ∧
  (s.processingFrame = false → s.isTracking = true → s.wsOpen = true →
    s.inFlight = 0) ∧
  s.completedCount ≤ 1 ∧
  (s.completedCount = 1 → s.isTracking = false ∧ s.wsOpen = false ∧
    s.intervalActive = false ∧ s.processingFrame = false) ∧
  (s.intervalActive = true → s.isInCorrectPose = true)

/-! Helper lemmas about list indexing and the indexed option map used by
the smoother. -/

theorem frame_get_lt {l : Frame} :
    ∀ {i : ℕ} {lm : Landmark}, l[i]? = some lm → i < l.length := by
  induction l with
  | nil => intro i lm h; simp at h
  | cons a as ih =>
    intro i lm h
    cases i with
    | zero => simp
    | succ i =>
      simp only [List.getElem?_cons_succ] at h
      exact Nat.succ_lt_succ (ih h)

theorem frame_get_of_lt {l : Frame} :
    ∀ {i : ℕ}, i < l.length → ∃ lm, l[i]? = some lm := by
  induction l with
  | nil => intro i h; simp at h
  | cons a as ih =>
    intro i h
    cases i with
    | zero => exact ⟨a, by simp⟩
    | succ i =>
      simp only [List.length_cons, Nat.succ_lt_succ_iff] at h
      simpa using ih h

theorem mapIdxOpt_length {g : ℕ → Landmark → Option Landmark} :
    ∀ {l : Frame} {s : ℕ} {out : Frame},
      mapIdxOpt g s l = some out → out.length = l.length := by
  intro l
  induction l with
  | nil =>
    intro s out h
    simp only [mapIdxOpt, Option.some.injEq] at h
    subst h; rfl
  | cons a as ih =>
    intro s out h
    cases hg : g s a with
    | none => simp [mapIdxOpt, hg] at h
    | some lm2 =>
      cases hr : mapIdxOpt g (s + 1) as with
      | none => simp [mapIdxOpt, hg, hr] at h
      | some rest2 =>
        simp only [mapIdxOpt, hg, hr, Option.some.injEq] at h
        subst h
        simp [ih hr]

theorem mapIdxOpt_get {g : ℕ → Landmark → Option Landmark} :
    ∀ {l : Frame} {s : ℕ} {out : Frame}, mapIdxOpt g s l = some out →
      ∀ {i : ℕ} {lm : Landmark}, l[i]? = some lm →
        out[i]? = g (s + i) lm := by
  intro l
  induction l with
  | nil => intro s out h i lm hi; simp at hi
  | cons a as ih =>
    intro s out h i lm hi
    cases hg : g s a with
    | none => simp [mapIdxOpt, hg] at h
    | some lm2 =>
      cases hr : mapIdxOpt g (s + 1) as with
      | none => simp [mapIdxOpt, hg, hr] at h
      | some rest2 =>
        simp only [mapIdxOpt, hg, hr, Option.some.injEq] at h
        subst h
        cases i with
        | zero =>
          simp only [List.getElem?_cons_zero, Option.some.injEq] at hi
          subst hi
          simpa using hg.symm
        | succ i =>
          simp only [List.getElem?_cons_succ] at hi
          have h2 := ih hr hi
          have e : s + 1 + i = s + (i + 1) := by omega
          rw [e] at h2
          simpa using h2

theorem mapIdxOpt_total {g : ℕ → Landmark → Option Landmark} :
    ∀ {l : Frame} {s : ℕ},
      (∀ j lm, l[j]? = some lm → ∃ lm2, g (s + j) lm = some lm2) →
      ∃ out, mapIdxOpt g s l = some out := by
  intro l
  induction l with
  | nil => intro s _; exact ⟨[], rfl⟩
  | cons a as ih =>
    intro s h
    obtain ⟨lm2, hg⟩ := h 0 a (by simp)
    rw [Nat.add_zero] at hg
    obtain ⟨rest2, hr⟩ := ih (s := s + 1) (fun j lm hj => by
      have h2 := h (j + 1) lm (by simpa using hj)
      have e : s + (j + 1) = s + 1 + j := by omega
      rw [e] at h2
      exact h2)
    exact ⟨lm2 :: rest2, by simp [mapIdxOpt, hg, hr]⟩

theorem mapIdxOpt_fixed {g : ℕ → Landmark → Option Landmark} :
    ∀ {l : Frame} {s : ℕ},
      (∀ j lm, l[j]? = some lm → g (s + j) lm = some lm) →
      mapIdxOpt g s l = some l := by
  intro l
  induction l with
  | nil => intro s _; rfl
  | cons a as ih =>
    intro s h
    have hg : g s a = some a := by simpa using h 0 a (by simp)
    have hr : mapIdxOpt g (s + 1) as = some as := ih (fun j lm hj => by
      have h2 := h (j + 1) lm (by simpa using hj)
      have e : s + (j + 1) = s + 1 + j := by omega
      rw [e] at h2
      exact h2)
    simp [mapIdxOpt, hg, hr]

theorem waStep_length {hist : List Frame} {cur out : Frame}
    (h : waStep hist cur = some out) : out.length = cur.length := by
  unfold waStep at h
  split at h
  · exact mapIdxOpt_length h
  · simp only [Option.some.injEq] at h; subst h; rfl

theorem blendStep_length {last? : Option Frame} {cur out : Frame}
    (h : blendStep last? cur = some out) : out.length = cur.length := by
  cases last? with
  | none => simp only [blendStep, Option.some.injEq] at h; subst h; rfl
  | some prev =>
    simp only [blendStep] at h
    split at h
    · exact mapIdxOpt_length h
    · simp only [Option.some.injEq] at h; subst h; rfl

theorem drawSkeletonSmooth_eq (st : SmootherState) (cur : Frame)
    (h0 : ¬ cur.length = 0) :
    drawSkeletonSmooth st cur =
      match waStep (pushHistory st.landmarkHistory cur) cur with
      | none => (none, ⟨pushHistory st.landmarkHistory cur, st.lastLandmarks⟩)
      | some lms1 =>
        match blendStep st.lastLandmarks lms1 with
        | none => (none, ⟨pushHistory st.landmarkHistory cur, st.lastLandmarks⟩)
        | some lms2 =>
          (some lms2, ⟨pushHistory st.landmarkHistory cur, some lms2⟩) := by
  unfold drawSkeletonSmooth
  rw [if_neg h0]

theorem waStep_z_vis {hist : List Frame} {cur out : Frame}
    (h : waStep hist cur = some out) {i : ℕ} {lm : Landmark}
    (hi : cur[i]? = some lm) :
    ∃ lm2, out[i]? = some lm2 ∧ lm2.z = lm.z ∧ lm2.vis = lm.vis := by
  unfold waStep at h
  split at h
  · have hval := mapIdxOpt_get h hi
    rw [Nat.zero_add] at hval
    have hlt : i < out.length := by
      rw [mapIdxOpt_length h]; exact frame_get_lt hi
    obtain ⟨lm2, h2⟩ := frame_get_of_lt hlt
    refine ⟨lm2, h2, ?_⟩
    rw [h2] at hval
    unfold waLandmark at hval
    cases hw : waFold hist.length i hist 0 with
    | none => rw [hw] at hval; simp at hval
    | some ws =>
      rw [hw] at hval
      simp only [Option.some.injEq] at hval
      subst hval
      exact ⟨rfl, rfl⟩
  · simp only [Option.some.injEq] at h; subst h
    exact ⟨lm, hi, rfl, rfl⟩

theorem blendStep_z_vis {last? : Option Frame} {cur out : Frame}
    (h : blendStep last? cur = some out) {i : ℕ} {lm : Landmark}
    (hi : cur[i]? = some lm) :
    ∃ lm2, out[i]? = some lm2 ∧ lm2.z = lm.z ∧ lm2.vis = lm.vis := by
  cases last? with
  | none =>
    simp only [blendStep, Option.some.injEq] at h; subst h
    exact ⟨lm, hi, rfl, rfl⟩
  | some prev =>
    simp only [blendStep] at h
    split at h
    · have hval := mapIdxOpt_get h hi
      rw [Nat.zero_add] at hval
      have hlt : i < out.length := by
        rw [mapIdxOpt_length h]; exact frame_get_lt hi
      obtain ⟨lm2, h2⟩ := frame_get_of_lt hlt
      refine ⟨lm2, h2, ?_⟩
      rw [h2] at hval
      cases hp : prev[i]? with
      | none => simp [blendLandmark, hp] at hval
      | some plm =>
        simp only [blendLandmark, hp] at hval
        split at hval <;>
          (simp only [Option.some.injEq] at hval; subst hval; exact ⟨rfl, rfl⟩)
    · simp only [Option.some.injEq] at h; subst h
      exact ⟨lm, hi, rfl, rfl⟩

/-- Claim C10: smoothing modifies only x and y. For every call to the
smoother that emits a frame and every landmark index, the emitted z
component and visibility component are exactly those of the current raw
input frame, unchanged by both the weighted-average step and the
exponential-blend step. -/
theorem c10_z_vis_passthrough {st : SmootherState} {cur out : Frame}
    {st2 : SmootherState} (h : drawSkeletonSmooth st cur = (some out, st2))
    {i : ℕ} {lm : Landmark} (hi : cur[i]? = some lm) :
    ∃ lm2, out[i]? = some lm2 ∧ lm2.z = lm.z ∧ lm2.vis = lm.vis := by
  by_cases h0 : cur.length = 0
  · unfold drawSkeletonSmooth at h
    rw [if_pos h0] at h
    simp at h
  · rw [drawSkeletonSmooth_eq st cur h0] at h
    split at h
    · simp at h
    · rename_i lms1 hwa
      split at h
      · simp at h
      · rename_i lms2 hbl
        simp only [Prod.mk.injEq, Option.some.injEq] at h
        obtain ⟨rfl, -⟩ := h
        obtain ⟨lm1, h1, hz1, hv1⟩ := waStep_z_vis hwa hi
        obtain ⟨lm2, h2, hz2, hv2⟩ := blendStep_z_vis hbl h1
        exact ⟨lm2, h2, hz2.trans hz1, hv2.trans hv1⟩

/-- Claim C10 witness: a concrete smoother call on a 2-landmark frame
with a stored history and a previous smoothed frame, checked end to
end; the blended first landmark keeps z = 9 and visibility = 1 from the
raw input. -/
theorem c10_witness :
    ∃ lm2, ([⟨1/3, 1/3, 9, 1⟩, ⟨4/3, 4/3, 4, 0⟩] : Frame)[0]? = some lm2 ∧
      lm2.z = (⟨1, 1, 9, 1⟩ : Landmark).z ∧
      lm2.vis = (⟨1, 1, 9, 1⟩ : Landmark).vis :=
  @c10_z_vis_passthrough
    ⟨[[⟨0, 0, 7, 1⟩, ⟨0, 0, 0, 1⟩]], some [⟨0, 0, 5, 1⟩, ⟨0, 0, 0, 1⟩]⟩
    [⟨1, 1, 9, 1⟩, ⟨2, 2, 4, 0⟩]
    [⟨1/3, 1/3, 9, 1⟩, ⟨4/3, 4/3, 4, 0⟩]
    ⟨[[⟨0, 0, 7, 1⟩, ⟨0, 0, 0, 1⟩], [⟨1, 1, 9, 1⟩, ⟨2, 2, 4, 0⟩]],
      some [⟨1/3, 1/3, 9, 1⟩, ⟨4/3, 4/3, 4, 0⟩]⟩
    (by norm_num [drawSkeletonSmooth, pushHistory, maxHistoryFrames, waStep,
      mapIdxOpt, waLandmark, waFold, weightAt, blendStep, blendLandmark,
      smoothingFactor])
    0 ⟨1, 1, 9, 1⟩ rfl

/-- Claim C7 (amended): a first frame arriving with empty history and no
previous smoothed frame passes through entirely unchanged; a frame whose
landmark count mismatches the previous smoothed frame bypasses only the
exponential-blend step, while the weighted-average step still runs over
the history buffer, so the emitted frame is the weighted-average output
rather than the raw input. -/
theorem c7_first_frame_and_mismatch (cur : Frame) (hne : cur ≠ [])
    (st : SmootherState) (prev : Frame) (hp : st.lastLandmarks = some prev)
    (hmis : prev.length ≠ cur.length) :
    drawSkeletonSmooth ⟨[], none⟩ cur = (some cur, ⟨[cur], some cur⟩) ∧
    (drawSkeletonSmooth st cur).1 =
      waStep (pushHistory st.landmarkHistory cur) cur := by
  have h0 : ¬ cur.length = 0 := fun h => hne (List.length_eq_zero.mp h)
  constructor
  · simp [drawSkeletonSmooth, h0, pushHistory, maxHistoryFrames, waStep,
      blendStep]
  · rw [drawSkeletonSmooth_eq st cur h0]
    cases hwa : waStep (pushHistory st.landmarkHistory cur) cur with
    | none => rfl
    | some lms1 =>
      have hbl : blendStep st.lastLandmarks lms1 = some lms1 := by
        rw [hp]
        simp only [blendStep]
        rw [if_neg (by rw [waStep_length hwa]; exact hmis)]
      simp [hbl]

/-- Claim C7 counterexample: with one stored 2-landmark frame, a new
1-landmark frame (landmark count mismatch) is still run through the
weighted-average step - the emitted x is 2/3, not the raw 1 - so the
mismatched frame is partially smoothed instead of bypassing smoothing
entirely. -/
theorem c7_counterexample :
    (drawSkeletonSmooth ⟨[[⟨0, 0, 0, 1⟩, ⟨0, 0, 0, 1⟩]],
        some [⟨0, 0, 0, 1⟩, ⟨0, 0, 0, 1⟩]⟩ [⟨1, 1, 0, 1⟩]).1 =
      some [⟨2/3, 2/3, 0, 1⟩] ∧
    (drawSkeletonSmooth ⟨[[⟨0, 0, 0, 1⟩, ⟨0, 0, 0, 1⟩]],
        some [⟨0, 0, 0, 1⟩, ⟨0, 0, 0, 1⟩]⟩ [⟨1, 1, 0, 1⟩]).1 ≠
      some [⟨1, 1, 0, 1⟩] := by
  have h : (drawSkeletonSmooth ⟨[[⟨0, 0, 0, 1⟩, ⟨0, 0, 0, 1⟩]],
      some [⟨0, 0, 0, 1⟩, ⟨0, 0, 0, 1⟩]⟩ [⟨1, 1, 0, 1⟩]).1 =
      some [⟨2/3, 2/3, 0, 1⟩] := by
    norm_num [drawSkeletonSmooth, pushHistory, maxHistoryFrames, waStep,
      mapIdxOpt, waLandmark, waFold, weightAt, blendStep, blendLandmark,
      smoothingFactor]
  refine ⟨h, ?_⟩
  rw [h]
  intro hcontra
  simp only [Option.some.injEq, List.cons.injEq] at hcontra
  have hx : (2 : ℚ)/3 = 1 := congrArg Landmark.x hcontra.1
  norm_num at hx

/-- Claim C7 witness: the amended statement applied to a concrete first
frame and to a concrete mismatched frame. -/
theorem c7_witness :
    drawSkeletonSmooth ⟨[], none⟩ [⟨1, 1, 0, 1⟩] =
      (some [⟨1, 1, 0, 1⟩], ⟨[[⟨1, 1, 0, 1⟩]], some [⟨1, 1, 0, 1⟩]⟩) ∧
    (drawSkeletonSmooth ⟨[[⟨0, 0, 0, 1⟩, ⟨0, 0, 0, 1⟩]],
        some [⟨0, 0, 0, 1⟩, ⟨0, 0, 0, 1⟩]⟩ [⟨1, 1, 0, 1⟩]).1 =
      waStep (pushHistory [[⟨0, 0, 0, 1⟩, ⟨0, 0, 0, 1⟩]] [⟨1, 1, 0, 1⟩])
        [⟨1, 1, 0, 1⟩] :=
  c7_first_frame_and_mismatch [⟨1, 1, 0, 1⟩] (by decide)
    ⟨[[⟨0, 0, 0, 1⟩, ⟨0, 0, 0, 1⟩]], some [⟨0, 0, 0, 1⟩, ⟨0, 0, 0, 1⟩]⟩
    [⟨0, 0, 0, 1⟩, ⟨0, 0, 0, 1⟩] rfl (by decide)

theorem waFold_replicate {F : Frame} {i : ℕ} {lm : Landmark}
    (h : F[i]? = some lm) {hLen : ℕ} (hL : 0 < hLen) :
    ∀ m k : ℕ, ∃ t : ℚ,
      waFold hLen i (List.replicate m F) k = some ⟨lm.x * t, lm.y * t, t⟩ ∧
      0 ≤ t ∧ (0 < m → 0 < t) := by
  intro m
  induction m with
  | zero =>
    intro k
    refine ⟨0, ?_, le_rfl, fun hc => absurd hc (Nat.lt_irrefl 0)⟩
    simp [waFold]
  | succ m ih =>
    intro k
    obtain ⟨t, ht, ht0, -⟩ := ih (k + 1)
    have hw : 0 < weightAt hLen k := by
      unfold weightAt
      have hk : (0 : ℚ) < (k : ℚ) + 1 := by positivity
      have hh : (0 : ℚ) < (hLen : ℚ) := by exact_mod_cast hL
      exact div_pos hk hh
    refine ⟨weightAt hLen k + t, ?_, by linarith, fun _ => by linarith⟩
    rw [List.replicate_succ]
    simp only [waFold, h, ht, Option.some.injEq, WSums.mk.injEq]
    exact ⟨by ring, by ring, trivial⟩

theorem waLandmark_replicate {F : Frame} {i : ℕ} {lm : Landmark}
    (h : F[i]? = some lm) {m : ℕ} (hm : 0 < m) :
    waLandmark (List.replicate m F) i lm = some lm := by
  obtain ⟨t, ht, -, htp⟩ := @waFold_replicate F i lm h m hm m 0
  have htne : t ≠ 0 := ne_of_gt (htp hm)
  unfold waLandmark
  rw [List.length_replicate, ht]
  simp only [Option.some.injEq]
  cases lm with
  | mk x y z vis =>
    simp only [Landmark.mk.injEq]
    exact ⟨mul_div_cancel_right₀ x htne, mul_div_cancel_right₀ y htne, trivial, trivial⟩

theorem waStep_replicate {F : Frame} {m : ℕ} (hm : 0 < m) :
    waStep (List.replicate m F) F = some F := by
  unfold waStep
  rw [List.length_replicate]
  split
  · exact mapIdxOpt_fixed fun j lm hj => by
      rw [Nat.zero_add]
      exact waLandmark_replicate hj hm
  · rfl

theorem blendLandmark_self {F : Frame} {j : ℕ} {lm : Landmark}
    (hj : F[j]? = some lm) : blendLandmark F j lm = some lm := by
  simp only [blendLandmark, hj]
  split
  · simp only [Option.some.injEq, smoothingFactor]
    cases lm with
    | mk x y z vis =>
      simp only [Landmark.mk.injEq]
      exact ⟨by ring, by ring, trivial, trivial⟩
  · rfl

theorem blendStep_self {F : Frame} : blendStep (some F) F = some F := by
  have h : blendStep (some F) F = mapIdxOpt (blendLandmark F) 0 F := by
    simp [blendStep]
  rw [h]
  exact mapIdxOpt_fixed fun j lm hj => by
    rw [Nat.zero_add]
    exact blendLandmark_self hj

theorem pushHistory_replicate {F : Frame} {m : ℕ} (hm : m ≤ 3) :
    pushHistory (List.replicate m F) F =
      List.replicate (min (m + 1) 3) F := by
  simp only [pushHistory, maxHistoryFrames]
  rw [← List.replicate_succ']
  rw [List.length_replicate]
  by_cases h3 : 3 < m + 1
  · rw [if_pos h3]
    have hm3 : m = 3 := by omega
    subst hm3
    rfl
  · rw [if_neg h3]
    have hmin : min (m + 1) 3 = m + 1 := by omega
    rw [hmin]

theorem drawSkeletonSmooth_const {F : Frame} (hF : ¬ F.length = 0)
    {m m2 : ℕ} (hm : 0 < m)
    (hpush : pushHistory (List.replicate m F) F = List.replicate m2 F)
    (hm2 : 0 < m2) :
    drawSkeletonSmooth ⟨List.replicate m F, some F⟩ F =
      (some F, ⟨List.replicate m2 F, some F⟩) := by
  rw [drawSkeletonSmooth_eq _ _ hF]
  dsimp only
  rw [hpush]
  simp only [waStep_replicate hm2, blendStep_self]

theorem iterateSmoother_const {F : Frame} (hF : ¬ F.length = 0) :
    ∀ n, 0 < n → ∃ m, 0 < m ∧ m ≤ 3 ∧
      iterateSmoother F n = (some F, ⟨List.replicate m F, some F⟩) := by
  intro n
  induction n with
  | zero => intro hc; exact absurd hc (Nat.lt_irrefl 0)
  | succ n ih =>
    intro _
    by_cases hn : 0 < n
    · obtain ⟨m, hm, hm3, hit⟩ := ih hn
      refine ⟨min (m + 1) 3, by omega, by omega, ?_⟩
      show drawSkeletonSmooth (iterateSmoother F n).2 F = _
      rw [hit]
      exact drawSkeletonSmooth_const hF hm (pushHistory_replicate hm3) (by omega)
    · have hn0 : n = 0 := by omega
      subst hn0
      refine ⟨1, Nat.one_pos, by omega, ?_⟩
      show drawSkeletonSmooth (iterateSmoother F 0).2 F = _
      simp [iterateSmoother, drawSkeletonSmooth, hF, pushHistory,
        maxHistoryFrames, waStep, blendStep, List.replicate]

/-- Claim C9: feeding the smoother an identical copy of a nonempty
static frame at least H = 3 consecutive times makes the smoothed output
exactly the static input frame - exact rational equality for every
landmark coordinate, hence inside any floating-point tolerance. -/
theorem c9_convergence (F : Frame) (hF : F ≠ []) (n : ℕ) (hn : 3 ≤ n) :
    (iterateSmoother F n).1 = some F := by
  have h0 : ¬ F.length = 0 := fun h => hF (List.length_eq_zero.mp h)
  obtain ⟨m, -, -, hit⟩ := iterateSmoother_const h0 n (by omega)
  rw [hit]

/-- Claim C9 witness: a concrete one-landmark frame repeated exactly 3
times comes back out unchanged. -/
theorem c9_witness :
    (iterateSmoother [⟨0, 0, 0, 1⟩] 3).1 = some [⟨0, 0, 0, 1⟩] :=
  c9_convergence [⟨0, 0, 0, 1⟩] (by decide) 3 (by decide)

/-- Claim C6: with the bounded history holding two prior frames (so the
buffer after pushing the current frame is at capacity 3) and a previous
smoothed frame of matching landmark count, the smoother emits, per
landmark, the recency-weighted average with weights (position+1)/3
normalized by their sum, then blends it with the previous smoothed
landmark as previous times 0.5 plus new times 0.5 exactly when both the
current raw visibility and the previous smoothed visibility exceed 0.5,
and passes the weighted average through unblended otherwise; z and
visibility always come from the current raw landmark. -/
theorem c6_smoother_formula (f1 f2 prev cur : Frame) (i : ℕ)
    (a b c p : Landmark)
    (h1 : f1[i]? = some a) (h2 : f2[i]? = some b)
    (hc : cur[i]? = some c) (hp : prev[i]? = some p)
    (hl1 : f1.length = cur.length) (hl2 : f2.length = cur.length)
    (hlp : prev.length = cur.length) :
    ∃ out st2,
      drawSkeletonSmooth ⟨[f1, f2], some prev⟩ cur = (some out, st2) ∧
      out[i]? = some (
        if 1/2 < c.vis ∧ 1/2 < p.vis then
          (⟨p.x * (1/2) +
              ((a.x * (1/3) + b.x * (2/3) + c.x * (3/3)) / (1/3 + 2/3 + 3/3))
                * (1/2),
            p.y * (1/2) +
              ((a.y * (1/3) + b.y * (2/3) + c.y * (3/3)) / (1/3 + 2/3 + 3/3))
                * (1/2),
            c.z, c.vis⟩ : Landmark)
        else
          (⟨(a.x * (1/3) + b.x * (2/3) + c.x * (3/3)) / (1/3 + 2/3 + 3/3),
            (a.y * (1/3) + b.y * (2/3) + c.y * (3/3)) / (1/3 + 2/3 + 3/3),
            c.z, c.vis⟩ : Landmark)) := by
  have hclt : i < cur.length := frame_get_lt hc
  have h0 : ¬ cur.length = 0 := by omega
  have hpush : pushHistory [f1, f2] cur = [f1, f2, cur] := by
    simp [pushHistory, maxHistoryFrames]
  have hwl : ∀ j a1 b1 lm, f1[j]? = some a1 → f2[j]? = some b1 →
      cur[j]? = some lm →
      waLandmark [f1, f2, cur] j lm =
        some ⟨(a1.x * (1/3) + b1.x * (2/3) + lm.x * (3/3)) / (1/3 + 2/3 + 3/3),
              (a1.y * (1/3) + b1.y * (2/3) + lm.y * (3/3)) / (1/3 + 2/3 + 3/3),
              lm.z, lm.vis⟩ := by
    intro j a1 b1 lm ha1 hb1 hlm
    simp only [waLandmark, waFold, ha1, hb1, hlm, weightAt, List.length_cons,
      List.length_nil, Option.some.injEq, Landmark.mk.injEq]
    norm_num
    exact ⟨by ring, by ring⟩
  obtain ⟨out1, hwa0⟩ :=
    mapIdxOpt_total (g := waLandmark [f1, f2, cur]) (l := cur) (s := 0)
      (fun j lm hj => by
        have hjlt : j < cur.length := frame_get_lt hj
        obtain ⟨a1, ha1⟩ := frame_get_of_lt (l := f1) (i := j) (by omega)
        obtain ⟨b1, hb1⟩ := frame_get_of_lt (l := f2) (i := j) (by omega)
        rw [Nat.zero_add]
        exact ⟨_, hwl j a1 b1 lm ha1 hb1 hj⟩)
  have hwa : waStep [f1, f2, cur] cur = some out1 := by
    unfold waStep
    rw [if_pos (by simp)]
    exact hwa0
  have hval1 : out1[i]? =
      some ⟨(a.x * (1/3) + b.x * (2/3) + c.x * (3/3)) / (1/3 + 2/3 + 3/3),
            (a.y * (1/3) + b.y * (2/3) + c.y * (3/3)) / (1/3 + 2/3 + 3/3),
            c.z, c.vis⟩ := by
    have hv := mapIdxOpt_get hwa0 hc
    rw [Nat.zero_add] at hv
    rw [hv]
    exact hwl i a b c h1 h2 hc
  have hlen1 : out1.length = cur.length := mapIdxOpt_length hwa0
  obtain ⟨out2, hbl0⟩ :=
    mapIdxOpt_total (g := blendLandmark prev) (l := out1) (s := 0)
      (fun j lm hj => by
        have hjlt : j < out1.length := frame_get_lt hj
        obtain ⟨p1, hp1⟩ := frame_get_of_lt (l := prev) (i := j) (by omega)
        rw [Nat.zero_add]
        simp only [blendLandmark, hp1]
        by_cases hgate : 1/2 < lm.vis ∧ 1/2 < p1.vis
        · exact ⟨_, by rw [if_pos hgate]⟩
        · exact ⟨_, by rw [if_neg hgate]⟩)
  have hbl : blendStep (some prev) out1 = some out2 := by
    simp only [blendStep]
    rw [if_pos (by omega)]
    exact hbl0
  refine ⟨out2, ⟨[f1, f2, cur], some out2⟩, ?_, ?_⟩
  · rw [drawSkeletonSmooth_eq _ _ h0]
    dsimp only
    simp only [hpush, hwa, hbl]
  · have hv2 := mapIdxOpt_get hbl0 hval1
    rw [Nat.zero_add] at hv2
    rw [hv2]
    simp only [blendLandmark, hp, smoothingFactor]
    split
    · simp only [Option.some.injEq, Landmark.mk.injEq]
      norm_num
    · rfl

/-- Claim C6 witness: the per-landmark formula at a concrete capacity-3
history of one-landmark frames with full visibility, so the blend branch
is taken. -/
theorem c6_witness :
    ∃ out st2,
      drawSkeletonSmooth
          ⟨[[⟨0, 0, 0, 1⟩], [⟨3, 3, 0, 1⟩]], some [⟨1, 1, 0, 1⟩]⟩
          [⟨6, 6, 2, 1⟩] = (some out, st2) ∧
      out[0]? = some (
        if 1/2 < (⟨6, 6, 2, 1⟩ : Landmark).vis ∧
            1/2 < (⟨1, 1, 0, 1⟩ : Landmark).vis then
          (⟨(⟨1, 1, 0, 1⟩ : Landmark).x * (1/2) +
              (((⟨0, 0, 0, 1⟩ : Landmark).x * (1/3) +
                (⟨3, 3, 0, 1⟩ : Landmark).x * (2/3) +
                (⟨6, 6, 2, 1⟩ : Landmark).x * (3/3)) /
                  (1/3 + 2/3 + 3/3)) * (1/2),
            (⟨1, 1, 0, 1⟩ : Landmark).y * (1/2) +
              (((⟨0, 0, 0, 1⟩ : Landmark).y * (1/3) +
                (⟨3, 3, 0, 1⟩ : Landmark).y * (2/3) +
                (⟨6, 6, 2, 1⟩ : Landmark).y * (3/3)) /
                  (1/3 + 2/3 + 3/3)) * (1/2),
            (⟨6, 6, 2, 1⟩ : Landmark).z, (⟨6, 6, 2, 1⟩ : Landmark).vis⟩ :
              Landmark)
        else
          (⟨((⟨0, 0, 0, 1⟩ : Landmark).x * (1/3) +
              (⟨3, 3, 0, 1⟩ : Landmark).x * (2/3) +
              (⟨6, 6, 2, 1⟩ : Landmark).x * (3/3)) / (1/3 + 2/3 + 3/3),
            ((⟨0, 0, 0, 1⟩ : Landmark).y * (1/3) +
              (⟨3, 3, 0, 1⟩ : Landmark).y * (2/3) +
              (⟨6, 6, 2, 1⟩ : Landmark).y * (3/3)) / (1/3 + 2/3 + 3/3),
            (⟨6, 6, 2, 1⟩ : Landmark).z, (⟨6, 6, 2, 1⟩ : Landmark).vis⟩ :
              Landmark)) :=
  c6_smoother_formula [⟨0, 0, 0, 1⟩] [⟨3, 3, 0, 1⟩] [⟨1, 1, 0, 1⟩]
    [⟨6, 6, 2, 1⟩] 0 ⟨0, 0, 0, 1⟩ ⟨3, 3, 0, 1⟩ ⟨6, 6, 2, 1⟩ ⟨1, 1, 0, 1⟩
    (by simp) (by simp) (by simp) (by simp) rfl rfl rfl

/-! Helper lemmas for the countdown state machine. -/

theorem tick_eq (s : SessionState) :
    tick s = if s.countdown - 1 ≤ 0 then
        exerciseCompleted
          { s with countdown := s.countdown - 1, intervalActive := false }
      else { s with countdown := s.countdown - 1 } := rfl

theorem handlePoseData_idle_qual {dur : ℤ} {s : SessionState} {a : ℚ}
    {c : Color} (hidle : s.isInCorrectPose = false)
    (hq : 70 ≤ a ∧ c = Color.green) :
    handlePoseData dur s (.result a c) =
      startCountdown dur { s with isInCorrectPose := true } := by
  simp [handlePoseData, hq, hidle]

theorem handlePoseData_idle_nonqual {dur : ℤ} {s : SessionState} {a : ℚ}
    {c : Color} (hidle : s.isInCorrectPose = false)
    (hq : ¬ (70 ≤ a ∧ c = Color.green)) :
    handlePoseData dur s (.result a c) = s := by
  simp [handlePoseData, hq, hidle]

theorem handlePoseData_holding_qual {dur : ℤ} {s : SessionState} {a : ℚ}
    {c : Color} (hpose : s.isInCorrectPose = true)
    (hq : 70 ≤ a ∧ c = Color.green) :
    handlePoseData dur s (.result a c) = s := by
  simp [handlePoseData, hq, hpose]

theorem handlePoseData_holding_nonqual {dur : ℤ} {s : SessionState} {a : ℚ}
    {c : Color} (hpose : s.isInCorrectPose = true)
    (hq : ¬ (70 ≤ a ∧ c = Color.green)) :
    handlePoseData dur s (.result a c) =
      resetCountdown dur { s with isInCorrectPose := false } := by
  simp [handlePoseData, hq, hpose]

theorem handlePoseData_fields (dur : ℤ) (s : SessionState) (m : PoseMessage) :
    (handlePoseData dur s m).isTracking = s.isTracking ∧
    (handlePoseData dur s m).processingFrame = s.processingFrame ∧
    (handlePoseData dur s m).inFlight = s.inFlight ∧
    (handlePoseData dur s m).wsOpen = s.wsOpen ∧
    (handlePoseData dur s m).completedCount = s.completedCount := by
  cases m with
  | failure => exact ⟨rfl, rfl, rfl, rfl, rfl⟩
  | result a c =>
    by_cases hq : 70 ≤ a ∧ c = Color.green
    · by_cases hpose : s.isInCorrectPose = true
      · rw [handlePoseData_holding_qual hpose hq]
        exact ⟨rfl, rfl, rfl, rfl, rfl⟩
      · have hpose2 : s.isInCorrectPose = false := by simpa using hpose
        rw [handlePoseData_idle_qual hpose2 hq]
        exact ⟨rfl, rfl, rfl, rfl, rfl⟩
    · by_cases hpose : s.isInCorrectPose = true
      · rw [handlePoseData_holding_nonqual hpose hq]
        exact ⟨rfl, rfl, rfl, rfl, rfl⟩
      · have hpose2 : s.isInCorrectPose = false := by simpa using hpose
        rw [handlePoseData_idle_nonqual hpose2 hq]
        exact ⟨rfl, rfl, rfl, rfl, rfl⟩

theorem handlePoseData_interval_pose (dur : ℤ) (s : SessionState)
    (m : PoseMessage)
    (h5 : s.intervalActive = true → s.isInCorrectPose = true) :
    (handlePoseData dur s m).intervalActive = true →
      (handlePoseData dur s m).isInCorrectPose = true := by
  cases m with
  | failure =>
    intro h
    exact absurd h (by simp [handlePoseData, resetCountdown])
  | result a c =>
    by_cases hq : 70 ≤ a ∧ c = Color.green
    · by_cases hpose : s.isInCorrectPose = true
      · rw [handlePoseData_holding_qual hpose hq]
        exact h5
      · have hpose2 : s.isInCorrectPose = false := by simpa using hpose
        rw [handlePoseData_idle_qual hpose2 hq]
        intro _; rfl
    · by_cases hpose : s.isInCorrectPose = true
      · rw [handlePoseData_holding_nonqual hpose hq]
        intro hcon
        exact absurd hcon (by simp [resetCountdown])
      · have hpose2 : s.isInCorrectPose = false := by simpa using hpose
        rw [handlePoseData_idle_nonqual hpose2 hq]
        exact h5

theorem sessionInv_init : SessionInv initialSession := by
  refine ⟨by decide, fun _ _ _ => rfl, by decide, ?_, ?_⟩
  · intro hc; exact absurd hc (by decide)
  · intro hc; exact absurd hc (by decide)

theorem sessionInv_step {dur : ℤ} {s s2 : SessionState} {e : Event}
    (hinv : SessionInv s) (h : step dur s e = some s2) : SessionInv s2 := by
  obtain ⟨i1, i2, i3, i4, i5⟩ := hinv
  cases e with
  | sendFrame =>
    simp only [step] at h
    split at h
    · rename_i hg
      obtain ⟨hg1, hg2, hg3⟩ := hg
      simp only [Option.some.injEq] at h
      subst h
      have hin0 : s.inFlight = 0 := i2 hg2 hg1 hg3
      refine ⟨?_, ?_, i3, ?_, i5⟩
      · show s.inFlight + 1 ≤ 1
        omega
      · intro hc
        exact absurd hc (by simp)
      · intro hc
        rw [(i4 hc).1] at hg1
        exact absurd hg1 (by simp)
    · cases h
  | deliver m =>
    simp only [step] at h
    split at h
    · rename_i hg
      obtain ⟨hg1, hg2⟩ := hg
      simp only [Option.some.injEq] at h
      subst h
      obtain ⟨hf1, hf2, hf3, hf4, hf5⟩ := handlePoseData_fields dur s m
      refine ⟨?_, ?_, ?_, ?_, ?_⟩
      · show s.inFlight - 1 ≤ 1
        omega
      · intro _ _ _
        show s.inFlight - 1 = 0
        omega
      · show (handlePoseData dur s m).completedCount ≤ 1
        rw [hf5]; exact i3
      · intro hc
        have hc2 : s.completedCount = 1 := by rw [← hf5]; exact hc
        rw [(i4 hc2).2.1] at hg1
        exact absurd hg1 (by simp)
      · exact handlePoseData_interval_pose dur s m i5
    · cases h
  | second =>
    simp only [step] at h
    split at h
    · rename_i hg
      simp only [Option.some.injEq] at h
      subst h
      have hc0 : s.completedCount = 0 := by
        by_cases hc : s.completedCount = 1
        · rw [(i4 hc).2.2.1] at hg
          exact absurd hg (by simp)
        · omega
      rw [tick_eq]
      split
      · refine ⟨i1, ?_, ?_, ?_, ?_⟩
        · intro _ htr
          exact absurd htr (by simp [exerciseCompleted, stopCamera])
        · show s.completedCount + 1 ≤ 1
          omega
        · intro _
          exact ⟨rfl, rfl, rfl, rfl⟩
        · intro hint
          exact absurd hint (by simp [exerciseCompleted, stopCamera])
      · exact ⟨i1, i2, i3, i4, i5⟩
    · cases h

theorem reachable_inv {dur : ℤ} {s : SessionState} (h : Reachable dur s) :
    SessionInv s := by
  induction h with
  | init => exact sessionInv_init
  | next hr hstep ih => exact sessionInv_step ih hstep

/-- Claim C1: for a session in the Idle state (isInCorrectPose false),
handlePoseData enters Holding - isInCorrectPose set, interval timer
started, countdown at the full configured duration - exactly when the
delivered evaluation is successful with accuracy at least 70 and color
green; any other delivery (lower accuracy, non-green color, or a
non-success message) leaves isInCorrectPose false. -/
theorem c1_idle_entry (dur : ℤ) (s : SessionState) (m : PoseMessage)
    (hidle : s.isInCorrectPose = false) :
    (((handlePoseData dur s m).isInCorrectPose = true ∧
      (handlePoseData dur s m).intervalActive = true ∧
      (handlePoseData dur s m).countdown = dur) ↔
      (∃ a c, m = PoseMessage.result a c ∧ 70 ≤ a ∧ c = Color.green)) ∧
    ((¬ ∃ a c, m = PoseMessage.result a c ∧ 70 ≤ a ∧ c = Color.green) →
      (handlePoseData dur s m).isInCorrectPose = false) := by
  cases m with
  | failure =>
    constructor
    · constructor
      · rintro ⟨hpose, -, -⟩
        exact absurd hpose (by simp [handlePoseData, resetCountdown, hidle])
      · rintro ⟨a, c, hac, -⟩
        cases hac
    · intro _
      simpa [handlePoseData, resetCountdown] using hidle
  | result a c =>
    by_cases hq : 70 ≤ a ∧ c = Color.green
    · rw [handlePoseData_idle_qual hidle hq]
      constructor
      · exact ⟨fun _ => ⟨a, c, rfl, hq.1, hq.2⟩, fun _ => ⟨rfl, rfl, rfl⟩⟩
      · intro hcon
        exact absurd ⟨a, c, rfl, hq.1, hq.2⟩ hcon
    · rw [handlePoseData_idle_nonqual hidle hq]
      constructor
      · constructor
        · rintro ⟨hpose, -, -⟩
          rw [hidle] at hpose
          exact absurd hpose (by simp)
        · rintro ⟨a2, c2, heq, h70, hg⟩
          cases heq
          exact absurd ⟨h70, hg⟩ hq
      · intro _
        exact hidle

/-- Claim C1 witness: the freshly opened Idle session receiving a
successful green evaluation with accuracy 80. -/
theorem c1_witness :
    (((handlePoseData 5 initialSession
        (PoseMessage.result 80 Color.green)).isInCorrectPose = true ∧
      (handlePoseData 5 initialSession
        (PoseMessage.result 80 Color.green)).intervalActive = true ∧
      (handlePoseData 5 initialSession
        (PoseMessage.result 80 Color.green)).countdown = 5) ↔
      (∃ a c, PoseMessage.result (80 : ℚ) Color.green =
          PoseMessage.result a c ∧ 70 ≤ a ∧ c = Color.green)) ∧
    ((¬ ∃ a c, PoseMessage.result (80 : ℚ) Color.green =
        PoseMessage.result a c ∧ 70 ≤ a ∧ c = Color.green) →
      (handlePoseData 5 initialSession
        (PoseMessage.result 80 Color.green)).isInCorrectPose = false) :=
  c1_idle_entry 5 initialSession (PoseMessage.result 80 Color.green) rfl

/-- Claim C2: over the whole accuracy domain the color bands are
characterized exactly by red below 50, yellow from 50 up to but not
including 70, and green from 70 up - contiguous, non-overlapping, and
closed at their lower bounds. -/
theorem c2_color_bands (a : ℚ) (h0 : 0 ≤ a) (h100 : a ≤ 100) :
    (colorOf a = Color.red ↔ a < 50) ∧
    (colorOf a = Color.yellow ↔ 50 ≤ a ∧ a < 70) ∧
    (colorOf a = Color.green ↔ 70 ≤ a) := by
  by_cases h50 : a < 50
  · simp only [colorOf, if_pos h50]
    refine ⟨⟨fun _ => h50, fun _ => trivial⟩, ?_, ?_⟩
    · constructor
      · intro hc; exact absurd hc (by decide)
      · rintro ⟨h1, -⟩; linarith
    · constructor
      · intro hc; exact absurd hc (by decide)
      · intro h1; linarith
  · by_cases h70 : a < 70
    · simp only [colorOf, if_neg h50, if_pos h70]
      refine ⟨?_, ⟨fun _ => ⟨le_of_not_lt h50, h70⟩, fun _ => trivial⟩, ?_⟩
      · constructor
        · intro hc; exact absurd hc (by decide)
        · intro h1; exact absurd h1 h50
      · constructor
        · intro hc; exact absurd hc (by decide)
        · intro h1; linarith
    · simp only [colorOf, if_neg h50, if_neg h70]
      refine ⟨?_, ?_, ⟨fun _ => le_of_not_lt h70, fun _ => trivial⟩⟩
      · constructor
        · intro hc; exact absurd hc (by decide)
        · intro h1; exact absurd h1 h50
      · constructor
        · intro hc; exact absurd hc (by decide)
        · rintro ⟨-, h2⟩; exact absurd h2 h70

/-- Claim C2 witness: the boundary value 70 itself maps to green, not to
red or yellow. -/
theorem c2_witness :
    (colorOf 70 = Color.red ↔ (70 : ℚ) < 50) ∧
    (colorOf 70 = Color.yellow ↔ (50 : ℚ) ≤ 70 ∧ (70 : ℚ) < 70) ∧
    (colorOf 70 = Color.green ↔ (70 : ℚ) ≤ 70) :=
  c2_color_bands 70 (by decide) (by decide)

/-- Claim C3 (code-bug evidence): a reachable Holding session with
remaining time 3 that receives one non-success message keeps
isInCorrectPose = true - it is not transitioned to Idle - while the
interval timer is cleared and the countdown reset; a subsequent
qualifying green evaluation (accuracy 80) then leaves the session
unchanged, so no new Holding entry ever starts the countdown. -/
theorem c3_failure_keeps_pose :
    Reachable 5 holdingBusy3 ∧
    step 5 holdingBusy3 (Event.deliver PoseMessage.failure) =
      some stuckAfterFailure ∧
    stuckAfterFailure.isInCorrectPose = true ∧
    stuckAfterFailure.intervalActive = false ∧
    handlePoseData 5 stuckAfterFailure (PoseMessage.result 80 Color.green) =
      stuckAfterFailure := by
  refine ⟨?_, by decide, by decide, by decide, by decide⟩
  have h1 : step 5 initialSession Event.sendFrame = some openSent := by
    decide
  have r1 : Reachable 5 openSent := Reachable.next Reachable.init h1
  have h2 : step 5 openSent
      (Event.deliver (PoseMessage.result 80 Color.green)) = some holding5 :=
    by decide
  have r2 : Reachable 5 holding5 := Reachable.next r1 h2
  have h3 : step 5 holding5 Event.second = some holding4 := by decide
  have r3 : Reachable 5 holding4 := Reachable.next r2 h3
  have h4 : step 5 holding4 Event.second = some holding3 := by decide
  have r4 : Reachable 5 holding3 := Reachable.next r3 h4
  have h5 : step 5 holding3 Event.sendFrame = some holdingBusy3 := by decide
  exact Reachable.next r4 h5

/-- Claim C4: in every reachable session state the completion event has
been emitted at most once; once it has been emitted no event is enabled
any more; and from a Holding state with countdown 1 one elapsed second
emits it exactly once and then disables every event - no further Holding
or Completed transitions. -/
theorem c4_completion_once (dur : ℤ) (s : SessionState)
    (h : Reachable dur s) :
    s.completedCount ≤ 1 ∧
    (s.completedCount = 1 → ∀ e, step dur s e = none) ∧
    (s.intervalActive = true → s.countdown = 1 →
      ∃ s2, step dur s Event.second = some s2 ∧ s2.completedCount = 1 ∧
        ∀ e, step dur s2 e = none) := by
  obtain ⟨i1, i2, i3, i4, i5⟩ := reachable_inv h
  refine ⟨i3, ?_, ?_⟩
  · intro hc e
    obtain ⟨ht, hw, hi, -⟩ := i4 hc
    cases e with
    | sendFrame => simp [step, ht]
    | deliver m => simp [step, hw]
    | second => simp [step, hi]
  · intro hint hcd
    have hc0 : s.completedCount = 0 := by
      by_cases hc : s.completedCount = 1
      · rw [(i4 hc).2.2.1] at hint
        exact absurd hint (by simp)
      · omega
    have hts : tick s = exerciseCompleted
        { s with countdown := s.countdown - 1, intervalActive := false } := by
      rw [tick_eq, if_pos (by omega)]
    refine ⟨tick s, by simp [step, hint], ?_, ?_⟩
    · rw [hts]
      show s.completedCount + 1 = 1
      omega
    · intro e
      rw [hts]
      cases e with
      | sendFrame => simp [step, exerciseCompleted, stopCamera]
      | deliver m => simp [step, exerciseCompleted, stopCamera]
      | second => simp [step, exerciseCompleted, stopCamera]

/-- Claim C4 witness: the theorem applied at the freshly opened session,
which is reachable by definition. -/
theorem c4_witness :
    initialSession.completedCount ≤ 1 ∧
    (initialSession.completedCount = 1 →
      ∀ e, step 5 initialSession e = none) ∧
    (initialSession.intervalActive = true → initialSession.countdown = 1 →
      ∃ s2, step 5 initialSession Event.second = some s2 ∧
        s2.completedCount = 1 ∧ ∀ e, step 5 s2 e = none) :=
  c4_completion_once 5 initialSession Reachable.init

/-- Claim C5: while Holding (isInCorrectPose set, interval timer
active), one elapsed second decrements the countdown by exactly 1, the
timer keeps running exactly while more than one second remains, and the
arrival of any qualifying green frame leaves the whole session state -
countdown included - unchanged, so the decrement rate is independent of
frame arrival. -/
theorem c5_tick_decrement (dur : ℤ) (s : SessionState)
    (hpose : s.isInCorrectPose = true) (hint : s.intervalActive = true) :
    (tick s).countdown = s.countdown - 1 ∧
    ((tick s).intervalActive = true ↔ 1 < s.countdown) ∧
    (∀ a c, 70 ≤ a → c = Color.green →
      handlePoseData dur s (PoseMessage.result a c) = s) := by
  refine ⟨?_, ?_, fun a c h70 hg =>
    handlePoseData_holding_qual hpose ⟨h70, hg⟩⟩
  · rw [tick_eq]
    split
    · rfl
    · rfl
  · rw [tick_eq]
    split
    · rename_i hle
      constructor
      · intro hcon
        exact absurd hcon (by simp [exerciseCompleted, stopCamera])
      · intro hlt
        exact absurd hle (by omega)
    · rename_i hgt
      constructor
      · intro _
        omega
      · intro _
        exact hint

/-- Claim C5 witness: the concrete Holding state with countdown 4. -/
theorem c5_witness :
    (tick holding4).countdown = holding4.countdown - 1 ∧
    ((tick holding4).intervalActive = true ↔ 1 < holding4.countdown) ∧
    (∀ a c, 70 ≤ a → c = Color.green →
      handlePoseData 5 holding4 (PoseMessage.result a c) = holding4) :=
  c5_tick_decrement 5 holding4 rfl rfl

/-- Claim C8: in every reachable session state at most one frame is in
flight; a frame capture while the pipeline is busy is dropped (the step
is disabled, and the model holds no queue to park it in); and a capture
is sent only from a state with zero frames in flight, raising it to
one. -/
theorem c8_single_flight (dur : ℤ) (s : SessionState)
    (h : Reachable dur s) :
    s.inFlight ≤ 1 ∧
    (s.processingFrame = true → step dur s Event.sendFrame = none) ∧
    (∀ s2, step dur s Event.sendFrame = some s2 →
      s.inFlight = 0 ∧ s2.inFlight = s.inFlight + 1) := by
  obtain ⟨i1, i2, i3, i4, i5⟩ := reachable_inv h
  refine ⟨i1, ?_, ?_⟩
  · intro hp
    simp [step, hp]
  · intro s2 h2
    simp only [step] at h2
    split at h2
    · rename_i hg
      obtain ⟨hg1, hg2, hg3⟩ := hg
      simp only [Option.some.injEq] at h2
      subst h2
      exact ⟨i2 hg2 hg1 hg3, rfl⟩
    · cases h2

/-- Claim C8 witness: the single-flight guarantees at the freshly opened
session. -/
theorem c8_witness :
    initialSession.inFlight ≤ 1 ∧
    (initialSession.processingFrame = true →
      step 5 initialSession Event.sendFrame = none) ∧
    (∀ s2, step 5 initialSession Event.sendFrame = some s2 →
      initialSession.inFlight = 0 ∧
      s2.inFlight = initialSession.inFlight + 1) :=
  c8_single_flight 5 initialSession Reachable.init

end FitnessTracker
